import Mathlib

set_option maxHeartbeats 1000000
set_option linter.unusedVariables false

/- Shallow embedding of the iceland-db heuristic extraction engine:
   src/parse_kssi.py together with the motnumer-resolution step of
   src/run_ingest.py.  HTML documents are abstracted as the element data the
   source actually consumes through BeautifulSoup: table rows carrying their
   cell texts and the first link href, anchors carrying href and visible text,
   and candidate text fragments of heading-like tags.  The two third-party
   library calls (dateutil fuzzy parsing and hashlib sha1) are modelled as
   explicit function parameters since their internals are not repository code;
   no claim below depends on their concrete values. -/

namespace KSI

/- Python-level character classes.  str.strip() and the regex \s class are
   modelled over the ASCII whitespace repertoire; regex \w (used for the \b
   word boundaries) is modelled as ASCII alphanumerics, underscore and the
   Icelandic letters that occur in the source's vocabulary. -/

def isPySpace (c : Char) : Bool :=
  c = ' ' || c = '\t' || c = '\n' || c = '\r' || c = Char.ofNat 11 || c = Char.ofNat 12

def icelandicLowerChars : List Char := ['á', 'ð', 'é', 'í', 'ó', 'ú', 'ý', 'þ', 'æ', 'ö']

def icelandicUpperChars : List Char := ['Á', 'Ð', 'É', 'Í', 'Ó', 'Ú', 'Ý', 'Þ', 'Æ', 'Ö']

def isIcelandicLetter (c : Char) : Bool :=
  icelandicLowerChars.contains c || icelandicUpperChars.contains c

def isWordChar (c : Char) : Bool :=
  c.isAlphanum || c = '_' || isIcelandicLetter c

/- Python str.lower over the character repertoire in play. -/
def toLowerChar (c : Char) : Char :=
  if 'A' ≤ c ∧ c ≤ 'Z' then Char.ofNat (c.toNat + 32)
  else if c = 'Á' then 'á'
  else if c = 'Ð' then 'ð'
  else if c = 'É' then 'é'
  else if c = 'Í' then 'í'
  else if c = 'Ó' then 'ó'
  else if c = 'Ú' then 'ú'
  else if c = 'Ý' then 'ý'
  else if c = 'Þ' then 'þ'
  else if c = 'Æ' then 'æ'
  else if c = 'Ö' then 'ö'
  else c

def toUpperChar (c : Char) : Char :=
  if 'a' ≤ c ∧ c ≤ 'z' then Char.ofNat (c.toNat - 32)
  else if c = 'á' then 'Á'
  else if c = 'ð' then 'Ð'
  else if c = 'é' then 'É'
  else if c = 'í' then 'Í'
  else if c = 'ó' then 'Ó'
  else if c = 'ú' then 'Ú'
  else if c = 'ý' then 'Ý'
  else if c = 'þ' then 'Þ'
  else if c = 'æ' then 'Æ'
  else if c = 'ö' then 'Ö'
  else c

def toLowerStr (s : String) : String := String.mk (s.toList.map toLowerChar)

/- Python str.strip(): drop whitespace at both ends. -/
def pyStrip (s : String) : String :=
  String.mk (((s.toList.dropWhile isPySpace).reverse.dropWhile isPySpace).reverse)

/- Python substring membership, x in s. -/
def containsSub (s sub : String) : Bool :=
  s.toList.tails.any (fun t => sub.toList.isPrefixOf t)

/- Python str.split() with no separator: split on whitespace runs. -/
def pySplitWsAux (cur : List Char) (acc : List String) : List Char → List String
  | [] => (if cur = [] then acc else String.mk cur.reverse :: acc).reverse
  | c :: cs =>
      if isPySpace c then
        pySplitWsAux [] (if cur = [] then acc else String.mk cur.reverse :: acc) cs
      else
        pySplitWsAux (c :: cur) acc cs

def pySplitWs (s : String) : List String := pySplitWsAux [] [] s.toList

def digitsToNat (l : List Char) : Nat :=
  l.foldl (fun n c => n * 10 + (c.toNat - 48)) 0

/- Word-boundary test for a match that starts on a word character: the
   character before the match position must be absent or not a word char. -/
def boundaryOk : Option Char → Bool
  | none => true
  | some c => !isWordChar c

/- Word-boundary test after a match that ends on a word character: the rest
   of the input must be empty or start with a non-word char. -/
def tailBoundaryOk : List Char → Bool
  | [] => true
  | c :: _ => !isWordChar c

/- Match a literal character sequence at the front, returning the rest. -/
def stripLit : List Char → List Char → Option (List Char)
  | [], l => some l
  | _ :: _, [] => none
  | x :: xs, c :: cs => if c = x then stripLit xs cs else none

/- Case-insensitive literal match (the literal is given lower-case). -/
def stripLitCI : List Char → List Char → Option (List Char)
  | [], l => some l
  | _ :: _, [] => none
  | x :: xs, c :: cs => if toLowerChar c = x then stripLitCI xs cs else none

/- Exactly n leading decimal digits, returning the rest. -/
def takeDigitsExact : Nat → List Char → Option (List Char)
  | 0, l => some l
  | _ + 1, [] => none
  | n + 1, c :: cs => if c.isDigit then takeDigitsExact n cs else none

/- SCORE_RE = \b(\d+)\s*[-EN DASH]\s*(\d+)\b, attempted at one position.
   The digit runs are maximal (the regex cannot backtrack into a shorter run
   here because the following atom never matches a digit).  Returns the two
   digit groups and the input remaining after the match. -/
def tryScoreAt (prev : Option Char) (l : List Char) : Option (List Char × List Char × List Char) :=
  if boundaryOk prev then
    match l.span Char.isDigit with
    | ([], _) => none
    | (d1, r1) =>
      match r1.dropWhile isPySpace with
      | [] => none
      | c :: r3 =>
        if c = '-' || c = '–' then
          match (r3.dropWhile isPySpace).span Char.isDigit with
          | ([], _) => none
          | (d2, r5) => if tailBoundaryOk r5 then some (d1, d2, r5) else none
        else none
  else none

/- re.search with SCORE_RE: leftmost match, integer groups. -/
def searchScoreAux (prev : Option Char) : List Char → Option (Nat × Nat)
  | [] => none
  | c :: cs =>
      match tryScoreAt prev (c :: cs) with
      | some (d1, d2, _) => some (digitsToNat d1, digitsToNat d2)
      | none => searchScoreAux (some c) cs

def searchScore (s : String) : Option (Nat × Nat) := searchScoreAux none s.toList

/- SCORE_RE.sub("", .): delete every non-overlapping match, scanning left to
   right and resuming after each match (fuel is the input length; every loop
   step consumes at least one character, so the fuel never runs out). -/
def scoreSubAux : Nat → Option Char → List Char → List Char
  | 0, _, l => l
  | fuel + 1, prev, l =>
      match l with
      | [] => []
      | c :: cs =>
        match tryScoreAt prev (c :: cs) with
        | some (_, d2, rest) => scoreSubAux fuel (some (d2.getLastD '0')) rest
        | none => c :: scoreSubAux fuel (some c) cs

def scoreSub (s : String) : String := String.mk (scoreSubAux s.length none s.toList)

/- TIME_RE = \b\d{1,2}:\d{2}\b attempted at one position; \d{1,2} tries two
   digits first, then one (regex backtracking). -/
def tryTimeAt (prev : Option Char) (l : List Char) : Bool :=
  boundaryOk prev &&
    ([2, 1].any fun k =>
      match takeDigitsExact k l with
      | some (':' :: r2) =>
          match takeDigitsExact 2 r2 with
          | some r3 => tailBoundaryOk r3
          | none => false
      | _ => false)

def hasTimeAux (prev : Option Char) : List Char → Bool
  | [] => false
  | c :: cs => tryTimeAt prev (c :: cs) || hasTimeAux (some c) cs

def hasTime (s : String) : Bool := hasTimeAux none s.toList

/- First branch of DATE_RE: \b\d{1,2}\.\s*\d{1,2}\.\s*\d{4}\b. -/
def tryDateA (l : List Char) : Bool :=
  [2, 1].any fun k1 =>
    match takeDigitsExact k1 l with
    | some ('.' :: r2) =>
        [2, 1].any fun k2 =>
          match takeDigitsExact k2 (r2.dropWhile isPySpace) with
          | some ('.' :: r5) =>
              match takeDigitsExact 4 (r5.dropWhile isPySpace) with
              | some r7 => tailBoundaryOk r7
              | none => false
          | _ => false
    | _ => false

/- Second branch of DATE_RE: \b\d{1,2}[dot slash dash]\d{1,2}[dot slash dash]\d{2,4}\b. -/
def tryDateB (l : List Char) : Bool :=
  [2, 1].any fun k1 =>
    match takeDigitsExact k1 l with
    | some (c1 :: r2) =>
        if c1 = '.' || c1 = '/' || c1 = '-' then
          [2, 1].any fun k2 =>
            match takeDigitsExact k2 r2 with
            | some (c2 :: r4) =>
                if c2 = '.' || c2 = '/' || c2 = '-' then
                  [4, 3, 2].any fun k3 =>
                    match takeDigitsExact k3 r4 with
                    | some r5 => tailBoundaryOk r5
                    | none => false
                else false
            | _ => false
        else false
    | _ => false

def tryDateAt (prev : Option Char) (l : List Char) : Bool :=
  boundaryOk prev && (tryDateA l || tryDateB l)

def hasDateAux (prev : Option Char) : List Char → Bool
  | [] => false
  | c :: cs => tryDateAt prev (c :: cs) || hasDateAux (some c) cs

def hasDate (s : String) : Bool := hasDateAux none s.toList

/- Tier pattern \b(\d+)\.\s*deild\b attempted at one position, returning the
   digit group. -/
def tryDeildAt (prev : Option Char) (l : List Char) : Option (List Char) :=
  if boundaryOk prev then
    match l.span Char.isDigit with
    | ([], _) => none
    | (d, r1) =>
      match r1 with
      | '.' :: r2 =>
          match stripLit ['d', 'e', 'i', 'l', 'd'] (r2.dropWhile isPySpace) with
          | some r4 => if tailBoundaryOk r4 then some d else none
          | none => none
      | _ => none
  else none

def searchDeildAux (prev : Option Char) : List Char → Option (List Char)
  | [] => none
  | c :: cs =>
      match tryDeildAt prev (c :: cs) with
      | some d => some d
      | none => searchDeildAux (some c) cs

/- re.search(r"\b(\d+)\.\s*deild\b", s): leftmost match, digit group. -/
def searchDeildNum (s : String) : Option Nat :=
  (searchDeildAux none s.toList).map digitsToNat

def deildNumFound (s : String) : Bool := (searchDeildAux none s.toList).isSome

/- infer_gender_tier (src/parse_kssi.py lines 162-182): gender from the
   keywords karla / kvenna, tier from the numbered-division pattern. -/
def infer_gender_tier (name_raw : String) : Option String × Option Nat :=
  let n := toLowerStr name_raw
  let gender : Option String :=
    if containsSub n "karla" then some "M"
    else if containsSub n "kvenna" then some "W"
    else none
  let tier : Option Nat := (searchDeildAux none n.toList).map digitsToNat
  (gender, tier)

/- try_parse_kickoff (lines 186-200).  dateutil.parser.parse plus the ISO
   formatting steps run inside a try block; they are modelled by the oracle
   dtp, whose error value stands for any exception the fuzzy parser raises.
   The function strips the input, returns none on an empty result, and maps
   any oracle exception to none. -/
def try_parse_kickoff (dtp : String → Except Unit String) (text : String) : Option String :=
  let t := pyStrip text
  if t = "" then none
  else
    match dtp t with
    | Except.ok iso => some iso
    | Except.error _ => none

/- _looks_like_datetime (lines 205-207). -/
def looksLikeDatetime (text : String) : Bool := hasTime text || hasDate text

/- Full match of \d{1,2}:\d{2} against a whole token (re.fullmatch in
   _split_front_datetime). -/
def isTimeToken (s : String) : Bool :=
  [2, 1].any fun k =>
    match takeDigitsExact k s.toList with
    | some (':' :: r2) =>
        match takeDigitsExact 2 r2 with
        | some [] => true
        | _ => false
    | _ => false

def firstTimeIdxAux (i : Nat) : List String → Option Nat
  | [] => none
  | p :: ps => if isTimeToken p then some i else firstTimeIdxAux (i + 1) ps

/- _split_front_datetime (lines 209-233): locate the first HH:MM token, and
   if the leading chunk up to and including it parses as a kickoff, split
   the text there. -/
def split_front_datetime (dtp : String → Except Unit String) (text : String) :
    Option String × String :=
  let t := pyStrip text
  if t = "" then (none, t)
  else
    let parts := pySplitWs t
    match firstTimeIdxAux 0 parts with
    | some i =>
        let kchunk := pyStrip (String.intercalate " " (parts.take (i + 1)))
        let remainder := pyStrip (String.intercalate " " (parts.drop (i + 1)))
        match try_parse_kickoff dtp kchunk with
        | some v => if v = "" then (none, t) else (some kchunk, remainder)
        | none => (none, t)
    | none => (none, t)

/- _strip_score (lines 202-203). -/
def stripScore (s : String) : String := pyStrip (scoreSub s)

/- stable_match_id (lines 20-22): sha1 hexdigest of the composite key.  The
   hash itself (hashlib, standard library) is the parameter sha1hex. -/
def stable_match_id (sha1hex : String → String)
    (motnumer kickoff_iso home away : String) : String :=
  sha1hex (motnumer ++ "|" ++ kickoff_iso ++ "|" ++ toLowerStr (pyStrip home)
    ++ "|" ++ toLowerStr (pyStrip away))

/- A Python dict with string keys: an insertion-ordered association list.
   Assigning to an existing key replaces the value in place; a new key is
   appended at the end. -/
def pyDictInsert {α : Type} (d : List (String × α)) (k : String) (v : α) :
    List (String × α) :=
  if d.any (fun p => p.1 = k) then
    d.map (fun p => if p.1 = k then (k, v) else p)
  else d ++ [(k, v)]

def assocFind {α : Type} (d : List (String × α)) (k : String) : Option α :=
  (d.find? (fun p => p.1 = k)).map (fun p => p.2)

/- One table row of a competition page, abstracted to what the source reads
   from BeautifulSoup: the td cell texts, via get_text(" ", strip=True), and
   the href of the first link in the row if one exists. -/
structure Row where
  tds : List String
  firstHref : Option String
deriving DecidableEq

/- An emitted match record (the dict literal of lines 332-343). -/
structure MatchRec where
  match_id : String
  motnumer : String
  kickoff_utc : Option String
  home_team_raw : String
  away_team_raw : String
  venue_raw : Option String
  status : String
  ft_home : Option Nat
  ft_away : Option Nat
  source_url : String
deriving DecidableEq

/- Header vocabulary of line 249. -/
def headerWords : List String :=
  ["lið", "úrslit", "dagset", "staður", "umferð", "date", "time"]

def headerSkip (joined : String) : Bool :=
  headerWords.any (fun w => containsSub (toLowerStr joined) w)

/- Kickoff scan of lines 259-267: first date/time-looking cell whose text
   parses to a truthy kickoff. -/
def findKickoff (dtp : String → Except Unit String) : List String → Option String
  | [] => none
  | t :: ts =>
      if looksLikeDatetime t then
        match try_parse_kickoff dtp t with
        | some kt => if kt = "" then findKickoff dtp ts else some kt
        | none => findKickoff dtp ts
      else findKickoff dtp ts

/- Team-candidate passes of lines 269-291: the first pass drops empty,
   date/time-shaped and purely numeric cells after stripping scores; the
   second, looser pass only drops empty and too-short cells. -/
def pass1Cell (t : String) : Option String :=
  if t = "" then none
  else if looksLikeDatetime t then none
  else if (stripScore t).length < 2 then none
  else if !(stripScore t).isEmpty && (stripScore t).toList.all Char.isDigit then none
  else some (stripScore t)

def pass2Cell (t : String) : Option String :=
  if t = "" then none
  else if (stripScore t).length < 2 then none
  else some (stripScore t)

def teamishPass1 (texts : List String) : List String := texts.filterMap pass1Cell

def teamishPass2 (texts : List String) : List String := texts.filterMap pass2Cell

def mkTeamish (texts : List String) : List String :=
  if (teamishPass1 texts).length < 2 then teamishPass1 texts ++ teamishPass2 texts
  else teamishPass1 texts

/- MATCH_RE = match/(\d+): leftmost occurrence, digit group. -/
def tryMatchIdAt (l : List Char) : Option (List Char) :=
  match stripLit ['m', 'a', 't', 'c', 'h', '/'] l with
  | some r =>
      match r.span Char.isDigit with
      | ([], _) => none
      | (d, _) => some d
  | none => none

def searchMatchIdAux : List Char → Option (List Char)
  | [] => none
  | c :: cs =>
      match tryMatchIdAt (c :: cs) with
      | some d => some d
      | none => searchMatchIdAux cs

def searchMatchId (href : String) : Option String :=
  (searchMatchIdAux href.toList).map String.mk

/- The embedded-kickoff rescue of lines 303-314, applied first to the home
   cell and then to the away cell while no kickoff is known.  Python
   truthiness: a missing or empty kickoff string counts as absent. -/
def applySplit (dtp : String → Except Unit String) (kick : Option String)
    (nm : String) : Option String × String :=
  if kick.getD "" = "" then
    match split_front_datetime dtp nm with
    | (some ktxt, rem) =>
        if ktxt = "" then (kick, nm)
        else (try_parse_kickoff dtp ktxt, if rem = "" then nm else rem)
    | (none, _) => (kick, nm)
  else (kick, nm)

/- Record assembly of lines 316-343: status from score presence, match_url
   from the first link (the source assigns href on both branches of its
   startswith test), match_id from the native link id or the stable hash. -/
def mkRecord (sha1hex : String → String) (motnumer sourceUrl : String) (row : Row)
    (fts : Option (Nat × Nat)) (kickoff_utc : Option String) (home away : String) :
    MatchRec :=
  let ft_home : Option Nat := fts.map (fun p => p.1)
  let ft_away : Option Nat := fts.map (fun p => p.2)
  let status := if ft_home.isSome && ft_away.isSome then "played" else "scheduled"
  let match_url :=
    match row.firstHref with
    | some href => href
    | none => sourceUrl
  let mid0 : Option String := row.firstHref.bind searchMatchId
  let match_id :=
    match mid0 with
    | some m =>
        if m = "" then stable_match_id sha1hex motnumer (kickoff_utc.getD "") home away
        else m
    | none => stable_match_id sha1hex motnumer (kickoff_utc.getD "") home away
  { match_id := match_id, motnumer := motnumer, kickoff_utc := kickoff_utc,
    home_team_raw := home, away_team_raw := away, venue_raw := none,
    status := status, ft_home := ft_home, ft_away := ft_away,
    source_url := match_url }

/- The per-row body of parse_matches_from_comp_page (lines 240-343).  Written
   without local lets so that each guard of the source appears as one
   conditional: fewer than three cells, header vocabulary, fewer than two
   team candidates, and no distinct away name each drop the row. -/
def extractRow (dtp : String → Except Unit String) (sha1hex : String → String)
    (motnumer sourceUrl : String) (row : Row) : Option MatchRec :=
  if row.tds.length < 3 then none
  else if headerSkip (String.intercalate " | " row.tds) then none
  else if (mkTeamish row.tds).length < 2 then none
  else
    match mkTeamish row.tds with
    | [] => none
    | t0 :: rest =>
      match (rest.map pyStrip).find? (fun x => !(x = "") && !(x = pyStrip t0)) with
      | none => none
      | some away =>
        some (mkRecord sha1hex motnumer sourceUrl row
          (searchScore (String.intercalate " | " row.tds))
          (applySplit dtp
            (applySplit dtp (findKickoff dtp row.tds) (pyStrip t0)).1 away).1
          (applySplit dtp (findKickoff dtp row.tds) (pyStrip t0)).2
          (applySplit dtp
            (applySplit dtp (findKickoff dtp row.tds) (pyStrip t0)).1 away).2)

/- De-duplication by match_id (lines 345-349): a Python dict keyed by
   match_id, later records overwriting earlier ones, then its values. -/
def dedupById (ms : List MatchRec) : List MatchRec :=
  (ms.foldl (fun d m => pyDictInsert d m.match_id m) []).map (fun p => p.2)

/- parse_matches_from_comp_page (lines 235-349) over the row abstraction. -/
def parse_matches_from_comp_page (dtp : String → Except Unit String)
    (sha1hex : String → String) (rows : List Row) (motnumer sourceUrl : String) :
    List MatchRec :=
  dedupById (rows.filterMap (extractRow dtp sha1hex motnumer sourceUrl))

/- Generic titles ignored by parse_competition_name (lines 34-41). -/
def BAD : List String :=
  ["staða & úrslit", "staða og úrslit", "úrslit", "staða", "fixtures", "results"]

/- The additive scoring rule of lines 65-90, written as one sum of its
   conditional contributions (the source accumulates them sequentially). -/
def score (s : String) : Int :=
  (if containsSub (toLowerStr s) "deild" then 50 else 0)
  + (if containsSub (toLowerStr s) "karla" then 40 else 0)
  + (if containsSub (toLowerStr s) "kvenna" then 40 else 0)
  + (if containsSub (toLowerStr s) "riðill" then 35 else 0)
  + (if containsSub (toLowerStr s) "bikar" then 25 else 0)
  + (if containsSub (toLowerStr s) "mót" then 10 else 0)
  + (if deildNumFound (toLowerStr s) then 60 else 0)
  + (if containsSub (toLowerStr s) "https://" || containsSub (toLowerStr s) "www." then -50 else 0)
  + (if containsSub (toLowerStr s) "motnumer" then -50 else 0)
  + (if containsSub (toLowerStr s) "veldu" then -20 else 0)
  + (if containsSub (toLowerStr s) "smelltu" then -20 else 0)
  + (if BAD.contains (toLowerStr s) then -200 else 0)
  + (if "ðþæöíúóáéý".toList.any (fun ch => s.toList.contains ch) then 5 else 0)

/- A competition page for title selection, abstracted to the text fragments
   the source collects: get_text of the heading-like tags in document order,
   and the page's stripped strings for the fallback. -/
structure CompPage where
  tagTexts : List String
  strippedStrings : List String

/- Candidate collection of lines 44-62. -/
def candFromTags (tagTexts : List String) : List String :=
  tagTexts.filterMap (fun t =>
    if t = "" then none
    else if BAD.contains (toLowerStr t) then none
    else if 5 ≤ t.length ∧ t.length ≤ 120 then some t
    else none)

def candFromStrings (ss : List String) : List String :=
  ss.filterMap (fun t =>
    if 5 ≤ (pyStrip t).length ∧ (pyStrip t).length ≤ 120
        ∧ ¬BAD.contains (toLowerStr (pyStrip t)) then some (pyStrip t)
    else none)

def candidates (page : CompPage) : List String :=
  if candFromTags page.tagTexts = [] then candFromStrings page.strippedStrings
  else candFromTags page.tagTexts

/- First-seen order de-duplication with a seen set (lines 92-98). -/
def pyUniqAux (seen : List String) : List String → List String
  | [] => []
  | c :: cs => if seen.contains c then pyUniqAux seen cs else c :: pyUniqAux (c :: seen) cs

def pyUniq (l : List String) : List String := pyUniqAux [] l

/- Maximum-scoring pick with a strict-improvement fold (lines 100-107). -/
def pickBestAux : List String → Option String → Int → Option String
  | [], best, _ => best
  | c :: cs, best, bestScore =>
      if score c > bestScore then pickBestAux cs (some c) (score c)
      else pickBestAux cs best bestScore

def pickBest (l : List String) : Option String := pickBestAux l none (-(10 ^ 9))

/- parse_competition_name (lines 30-113).  The motnumer argument is carried
   by the source and never used. -/
def parse_competition_name (page : CompPage) (motnumer : String) : String :=
  match pickBest (pyUniq (candidates page)) with
  | none => "Unknown competition"
  | some best =>
      if best = "" ∨ BAD.contains (toLowerStr best) then "Unknown competition"
      else best

/- MOT_RE = motnumer=(\d+): leftmost occurrence (re.search). -/
def tryMotAt (l : List Char) : Option (List Char) :=
  match stripLit ['m', 'o', 't', 'n', 'u', 'm', 'e', 'r', '='] l with
  | some r =>
      match r.span Char.isDigit with
      | ([], _) => none
      | (d, _) => some d
  | none => none

def searchMotAux : List Char → Option (List Char)
  | [] => none
  | c :: cs =>
      match tryMotAt (c :: cs) with
      | some d => some d
      | none => searchMotAux cs

def searchMot (href : String) : Option String := (searchMotAux href.toList).map String.mk

/- MOT_RE.finditer over the whole document (lines 24-28): non-overlapping
   matches scanning left to right, resuming after each match.  The fuel is
   the input length; every step consumes at least one character. -/
def motScanAux : Nat → List Char → List String
  | 0, _ => []
  | _ + 1, [] => []
  | fuel + 1, c :: cs =>
      match stripLit ['m', 'o', 't', 'n', 'u', 'm', 'e', 'r', '='] (c :: cs) with
      | some r =>
          match r.span Char.isDigit with
          | ([], _) => motScanAux fuel cs
          | (d, rest) => String.mk d :: motScanAux fuel rest
      | none => motScanAux fuel cs

/- Lexicographic code-point order on strings, as Python sorted uses. -/
def listCharLe : List Char → List Char → Bool
  | [], _ => true
  | _ :: _, [] => false
  | a :: as, b :: bs => if a = b then listCharLe as bs else decide (a < b)

def insertSorted (x : String) : List String → List String
  | [] => [x]
  | y :: ys => if listCharLe x.toList y.toList then x :: y :: ys else y :: insertSorted x ys

def sortStrs (l : List String) : List String := l.foldr insertSorted []

/- extract_motnumer_links (lines 24-28): the sorted set of captured keys. -/
def extract_motnumer_links (html : String) : List String :=
  sortStrs (motScanAux html.length html.toList).dedup

/- An anchor element of the index page: href attribute and visible text. -/
structure Anchor where
  href : String
  text : String
deriving DecidableEq

structure Competition where
  motnumer : String
  season : Int
  gender : Option String
  tier : Option Nat
  name_raw : String
  group_label : Option String
  source_url : String
deriving DecidableEq

/- Group-label pattern of line 143: an upper-or-lower single letter, \s*,
   then the group word, case-insensitively, with word boundaries. -/
def tryGroupAt (prev : Option Char) (l : List Char) : Option Char :=
  if boundaryOk prev then
    match l with
    | c :: r1 =>
        if c.isAlpha || isIcelandicLetter c then
          match stripLitCI ['r', 'i', 'ð', 'i', 'l', 'l'] (r1.dropWhile isPySpace) with
          | some r2 => if tailBoundaryOk r2 then some c else none
          | none => none
        else none
    | [] => none
  else none

def searchGroupAux (prev : Option Char) : List Char → Option Char
  | [] => none
  | c :: cs =>
      match tryGroupAt prev (c :: cs) with
      | some g => some g
      | none => searchGroupAux (some c) cs

def searchGroupLabel (name : String) : Option String :=
  (searchGroupAux none name.toList).map
    (fun g => String.mk [toUpperChar g] ++ " riðill")

/- parse_competitions_from_index (lines 115-159): walk the anchors in
   document order, keep those whose href carries a motnumer, skip empty
   names and the two generic navigation labels, and build the insertion-
   ordered competition dict (later anchors overwrite the same key). -/
def parse_competitions_from_index (anchors : List Anchor) (year : Int) :
    List (String × Competition) :=
  anchors.foldl (fun comps a =>
    match searchMot a.href with
    | none => comps
    | some mot =>
        if a.text = "" then comps
        else if toLowerStr a.text = "staða & úrslit" ∨ toLowerStr a.text = "staða og úrslit" then
          comps
        else
          pyDictInsert comps mot
            { motnumer := mot, season := year,
              gender := (infer_gender_tier a.text).1,
              tier := (infer_gender_tier a.text).2,
              name_raw := a.text,
              group_label := searchGroupLabel a.text,
              source_url :=
                if a.href.startsWith "http" then a.href
                else "https://www.ksi.is" ++ a.href }) []

/- The motnumer-resolution step of run_ingest.main (src/run_ingest.py lines
   24-36): keys of the index mapping, the raw-scan fallback when that is
   empty, and the hard RuntimeError when both are empty. -/
def resolveMotnums (anchors : List Anchor) (year : Int) (indexHtml : String) :
    Except String (List String) :=
  let comps := parse_competitions_from_index anchors year
  let motnums :=
    if (comps.map (fun p => p.1)).isEmpty then extract_motnumer_links indexHtml
    else comps.map (fun p => p.1)
  if motnums.isEmpty then
    Except.error "No motnumer links found on index page"
  else Except.ok motnums

/- Concrete oracle instances used by the witness theorems: a fuzzy date
   parser that always raises, and a hash oracle that returns its input. -/
def dtpFail : String → Except Unit String := fun _ => Except.error ()

def shaIdent : String → String := fun s => s

/- The running best of pickBestAux once a first candidate has been adopted:
   a later candidate replaces the best exactly on strict improvement. -/
def bestFrom (w : String) : List String → String
  | [] => w
  | c :: cs => if score c > score w then bestFrom c cs else bestFrom w cs

/- Helper lemmas about the Python-dict model used by the de-duplication
   step, and an inversion principle for extractRow. -/

theorem findCongrGen {α : Type} {p q : α → Bool} :
    ∀ l : List α, (∀ x ∈ l, p x = q x) → l.find? p = l.find? q := by
  intro l h
  induction l with
  | nil => rfl
  | cons a as ih =>
      have ha := h a (List.mem_cons_self _ _)
      simp only [List.find?]
      rw [ha]
      cases q a
      · exact ih (fun x hx => h x (List.mem_cons_of_mem _ hx))
      · rfl

theorem fst_pyDictInsert {α : Type} (d : List (String × α)) (k : String) (v : α) :
    (pyDictInsert d k v).map (fun p => p.1) =
      if d.any (fun p => decide (p.1 = k)) then d.map (fun p => p.1)
      else d.map (fun p => p.1) ++ [k] := by
  unfold pyDictInsert
  split
  · rw [List.map_map]
    refine List.map_congr_left fun p _ => ?_
    by_cases h : p.1 = k
    · simp [Function.comp, h]
    · simp [Function.comp, h]
  · simp

theorem nodup_fst_pyDictInsert {α : Type} (d : List (String × α)) (k : String) (v : α)
    (hd : (d.map (fun p => p.1)).Nodup) :
    ((pyDictInsert d k v).map (fun p => p.1)).Nodup := by
  rw [fst_pyDictInsert]
  split
  · exact hd
  · rename_i hany
    rw [List.nodup_append]
    refine ⟨hd, List.nodup_singleton k, ?_⟩
    intro x hx hxk
    rw [List.mem_singleton] at hxk
    subst hxk
    obtain ⟨p, hp, hpk⟩ := List.mem_map.mp hx
    exact hany (List.any_eq_true.mpr ⟨p, hp, by simp [hpk]⟩)

theorem mem_pyDictInsert {α : Type} {d : List (String × α)} {k : String} {v : α}
    {p : String × α} (hp : p ∈ pyDictInsert d k v) : p ∈ d ∨ p = (k, v) := by
  unfold pyDictInsert at hp
  split at hp
  · obtain ⟨q, hq, hqp⟩ := List.mem_map.mp hp
    by_cases h : q.1 = k
    · rw [if_pos h] at hqp
      exact Or.inr hqp.symm
    · rw [if_neg h] at hqp
      exact Or.inl (hqp ▸ hq)
  · rcases List.mem_append.mp hp with h | h
    · exact Or.inl h
    · exact Or.inr (List.mem_singleton.mp h)

theorem assocFind_pyDictInsert {α : Type} (d : List (String × α)) (k : String)
    (v : α) (q : String) :
    assocFind (pyDictInsert d k v) q = if q = k then some v else assocFind d q := by
  unfold pyDictInsert assocFind
  split
  · rename_i hany
    rw [List.find?_map]
    have hcong : List.find? ((fun p : String × α => decide (p.1 = q)) ∘
        (fun p => if p.1 = k then (k, v) else p)) d =
        List.find? (fun p : String × α => decide (p.1 = q)) d := by
      refine findCongrGen d (fun p _ => ?_)
      by_cases h : p.1 = k
      · simp [Function.comp, h]
      · simp [Function.comp, h]
    rw [hcong]
    by_cases hq : q = k
    · subst hq
      have hsome : (List.find? (fun p : String × α => decide (p.1 = q)) d).isSome := by
        rw [List.find?_isSome]
        obtain ⟨p, hp, hpk⟩ := List.any_eq_true.mp hany
        exact ⟨p, hp, by simpa using by simpa using hpk⟩
      obtain ⟨p₀, hp₀⟩ := Option.isSome_iff_exists.mp hsome
      have hp₀k : p₀.1 = q := by simpa using List.find?_some hp₀
      rw [hp₀, if_pos rfl]
      simp [hp₀k]
    · rw [if_neg hq]
      cases hf : List.find? (fun p : String × α => decide (p.1 = q)) d with
      | none => simp
      | some p₀ =>
          have hp₀q : p₀.1 = q := by simpa using List.find?_some hf
          have hne : ¬(p₀.1 = k) := fun h => hq (hp₀q ▸ h ▸ rfl)
          simp [hne]
  · rename_i hany
    rw [List.find?_append]
    by_cases hq : q = k
    · subst hq
      have hnone : List.find? (fun p : String × α => decide (p.1 = q)) d = none := by
        rw [List.find?_eq_none]
        intro p hp hpq
        exact hany (List.any_eq_true.mpr ⟨p, hp, by simpa using hpq⟩)
      rw [hnone, if_pos rfl]
      simp [List.find?]
    · rw [if_neg hq]
      have h1 : List.find? (fun p : String × α => decide (p.1 = q)) [(k, v)] = none := by
        have : ¬(k = q) := fun h => hq h.symm
        simp [List.find?, this]
      rw [h1]
      cases List.find? (fun p : String × α => decide (p.1 = q)) d <;> simp [Option.or]

theorem assocFind_foldl_pyDictInsert {α : Type} (ps : List (String × α))
    (d : List (String × α)) (k : String) :
    assocFind (ps.foldl (fun d p => pyDictInsert d p.1 p.2) d) k =
      match ps.reverse.find? (fun p => decide (p.1 = k)) with
      | some p => some p.2
      | none => assocFind d k := by
  induction ps generalizing d with
  | nil => simp
  | cons p ps ih =>
      rw [List.foldl_cons, ih, List.reverse_cons, List.find?_append]
      cases hf : ps.reverse.find? (fun p => decide (p.1 = k)) with
      | some q => simp [Option.or]
      | none =>
          rw [assocFind_pyDictInsert]
          by_cases hpk : p.1 = k
          · simp [List.find?, hpk, Option.or]
          · have : ¬(k = p.1) := fun h => hpk h.symm
            simp [List.find?, hpk, this, Option.or]

theorem foldl_pyDictInsert_invariant {α : Type} (C : String × α → Prop)
    (ps : List (String × α)) (d : List (String × α))
    (hd : ∀ p ∈ d, C p) (hps : ∀ p ∈ ps, C p) :
    ∀ p ∈ ps.foldl (fun d p => pyDictInsert d p.1 p.2) d, C p := by
  induction ps generalizing d with
  | nil => exact hd
  | cons q ps ih =>
      rw [List.foldl_cons]
      refine ih _ (fun p hp => ?_) (fun p hp => hps p (List.mem_cons_of_mem _ hp))
      rcases mem_pyDictInsert hp with h | h
      · exact hd p h
      · exact h ▸ hps q (List.mem_cons_self _ _)

theorem nodup_fst_foldl_pyDictInsert {α : Type} (ps : List (String × α))
    (d : List (String × α)) (hd : (d.map (fun p => p.1)).Nodup) :
    ((ps.foldl (fun d p => pyDictInsert d p.1 p.2) d).map (fun p => p.1)).Nodup := by
  induction ps generalizing d with
  | nil => exact hd
  | cons q ps ih => exact ih _ (nodup_fst_pyDictInsert _ _ _ hd)

theorem assocFind_of_mem_nodup {α : Type} {d : List (String × α)}
    (hd : (d.map (fun p => p.1)).Nodup) {p : String × α} (hp : p ∈ d) :
    assocFind d p.1 = some p.2 := by
  induction d with
  | nil => exact absurd hp (List.not_mem_nil p)
  | cons q rest ih =>
      rw [List.map_cons, List.nodup_cons] at hd
      rcases List.mem_cons.mp hp with h | h
      · subst h
        simp [assocFind, List.find?]
      · by_cases hq : q.1 = p.1
        · exact absurd (hq ▸ List.mem_map.mpr ⟨p, h, rfl⟩) hd.1
        · simp only [assocFind, List.find?, decide_eq_false hq]
          exact ih hd.2 h

/- The de-duplicating dict of dedupById, looked up by key, returns the last
   record in candidate order carrying that key. -/
theorem assocFind_dedup (ms : List MatchRec) (k : String) :
    assocFind (ms.foldl (fun d m => pyDictInsert d m.match_id m) []) k =
      ms.reverse.find? (fun m => decide (m.match_id = k)) := by
  have hfold : ms.foldl (fun d m => pyDictInsert d m.match_id m) [] =
      (ms.map (fun m => (m.match_id, m))).foldl (fun d p => pyDictInsert d p.1 p.2) [] := by
    rw [List.foldl_map]
  rw [hfold, assocFind_foldl_pyDictInsert, ← List.map_reverse, List.find?_map]
  have hco : ((fun p : String × MatchRec => decide (p.1 = k)) ∘ fun m => (m.match_id, m)) =
      (fun m : MatchRec => decide (m.match_id = k)) := rfl
  rw [hco]
  cases hf : ms.reverse.find? (fun m : MatchRec => decide (m.match_id = k)) with
  | none => simp [assocFind]
  | some m₀ => simp

/- Every successful row extraction is an application of mkRecord. -/
theorem extractRow_some_shape {dtp : String → Except Unit String}
    {sha1hex : String → String} {motnumer sourceUrl : String} {r : Row} {m : MatchRec}
    (h : extractRow dtp sha1hex motnumer sourceUrl r = some m) :
    ∃ fts kick home away, m = mkRecord sha1hex motnumer sourceUrl r fts kick home away := by
  unfold extractRow at h
  split at h
  · exact Option.noConfusion h
  · split at h
    · exact Option.noConfusion h
    · split at h
      · exact Option.noConfusion h
      · split at h
        · exact Option.noConfusion h
        · split at h
          · exact Option.noConfusion h
          · exact ⟨_, _, _, _, (Option.some.inj h).symm⟩

theorem mkRecord_venue (sha1hex : String → String) (motnumer sourceUrl : String)
    (row : Row) (fts : Option (Nat × Nat)) (kick : Option String) (home away : String) :
    (mkRecord sha1hex motnumer sourceUrl row fts kick home away).venue_raw = none := rfl

theorem mkRecord_status (sha1hex : String → String) (motnumer sourceUrl : String)
    (row : Row) (fts : Option (Nat × Nat)) (kick : Option String) (home away : String) :
    (mkRecord sha1hex motnumer sourceUrl row fts kick home away).status =
      if (mkRecord sha1hex motnumer sourceUrl row fts kick home away).ft_home.isSome &&
          (mkRecord sha1hex motnumer sourceUrl row fts kick home away).ft_away.isSome
      then "played" else "scheduled" := by
  cases fts <;> rfl

/- Every record of the deduplicated output arose from some row. -/
theorem mem_parse_matches {dtp : String → Except Unit String} {sha1hex : String → String}
    {rows : List Row} {motnumer sourceUrl : String} {m : MatchRec}
    (hm : m ∈ parse_matches_from_comp_page dtp sha1hex rows motnumer sourceUrl) :
    ∃ r ∈ rows, extractRow dtp sha1hex motnumer sourceUrl r = some m := by
  unfold parse_matches_from_comp_page dedupById at hm
  obtain ⟨p, hp, hpm⟩ := List.mem_map.mp hm
  have hfold : (rows.filterMap (extractRow dtp sha1hex motnumer sourceUrl)).foldl
      (fun d m => pyDictInsert d m.match_id m) [] =
      ((rows.filterMap (extractRow dtp sha1hex motnumer sourceUrl)).map
        (fun m => (m.match_id, m))).foldl (fun d p => pyDictInsert d p.1 p.2) [] := by
    rw [List.foldl_map]
  rw [hfold] at hp
  have hp2 := foldl_pyDictInsert_invariant
    (fun p => p.2 ∈ rows.filterMap (extractRow dtp sha1hex motnumer sourceUrl)) _ []
    (by intro p hp; exact absurd hp (List.not_mem_nil p))
    (by
      intro q hq
      obtain ⟨m', hm', rfl⟩ := List.mem_map.mp hq
      exact hm') p hp
  simp only [] at hp2
  rw [hpm] at hp2
  exact List.mem_filterMap.mp hp2

/- The key stored with each record in the dedup dict is its match_id. -/
theorem dedup_pair_key {dtp : String → Except Unit String} {sha1hex : String → String}
    {rows : List Row} {motnumer sourceUrl : String} {p : String × MatchRec}
    (hp : p ∈ ((rows.filterMap (extractRow dtp sha1hex motnumer sourceUrl)).map
        (fun m => (m.match_id, m))).foldl (fun d q => pyDictInsert d q.1 q.2) []) :
    p.1 = p.2.match_id := by
  refine foldl_pyDictInsert_invariant (fun p => p.1 = p.2.match_id) _ []
    (by intro q hq; exact absurd hq (List.not_mem_nil q))
    (by
      intro q hq
      obtain ⟨m', hm', rfl⟩ := List.mem_map.mp hq
      rfl) p hp

/- Lemmas for the title-selection claim: the strict-improvement fold picks
   the first candidate attaining the maximum score. -/

theorem score_lb (s : String) : -(10 ^ 9 : Int) < score s := by
  have h1 : (-200 : Int) ≤ if containsSub (toLowerStr s) "deild" then (50 : Int) else 0 := by
    split <;> norm_num
  have h2 : (-200 : Int) ≤ if containsSub (toLowerStr s) "karla" then (40 : Int) else 0 := by
    split <;> norm_num
  have h3 : (-200 : Int) ≤ if containsSub (toLowerStr s) "kvenna" then (40 : Int) else 0 := by
    split <;> norm_num
  have h4 : (-200 : Int) ≤ if containsSub (toLowerStr s) "riðill" then (35 : Int) else 0 := by
    split <;> norm_num
  have h5 : (-200 : Int) ≤ if containsSub (toLowerStr s) "bikar" then (25 : Int) else 0 := by
    split <;> norm_num
  have h6 : (-200 : Int) ≤ if containsSub (toLowerStr s) "mót" then (10 : Int) else 0 := by
    split <;> norm_num
  have h7 : (-200 : Int) ≤ if deildNumFound (toLowerStr s) then (60 : Int) else 0 := by
    split <;> norm_num
  have h8 : (-200 : Int) ≤
      if containsSub (toLowerStr s) "https://" || containsSub (toLowerStr s) "www."
      then (-50 : Int) else 0 := by
    split <;> norm_num
  have h9 : (-200 : Int) ≤ if containsSub (toLowerStr s) "motnumer" then (-50 : Int) else 0 := by
    split <;> norm_num
  have h10 : (-200 : Int) ≤ if containsSub (toLowerStr s) "veldu" then (-20 : Int) else 0 := by
    split <;> norm_num
  have h11 : (-200 : Int) ≤ if containsSub (toLowerStr s) "smelltu" then (-20 : Int) else 0 := by
    split <;> norm_num
  have h12 : (-200 : Int) ≤ if BAD.contains (toLowerStr s) then (-200 : Int) else 0 := by
    split <;> norm_num
  have h13 : (-200 : Int) ≤
      if "ðþæöíúóáéý".toList.any (fun ch => s.toList.contains ch) then (5 : Int) else 0 := by
    split <;> norm_num
  unfold score
  linarith

theorem pickBestAux_some (l : List String) : ∀ w : String,
    pickBestAux l (some w) (score w) = some (bestFrom w l) := by
  induction l with
  | nil => intro w; rfl
  | cons c cs ih =>
      intro w
      simp only [pickBestAux, bestFrom]
      by_cases h : score c > score w
      · rw [if_pos h, if_pos h]
        exact ih c
      · rw [if_neg h, if_neg h]
        exact ih w

theorem pickBest_cons (c : String) (cs : List String) :
    pickBest (c :: cs) = some (bestFrom c cs) := by
  unfold pickBest
  simp only [pickBestAux]
  rw [if_pos (score_lb c)]
  exact pickBestAux_some cs c

theorem bestFrom_find (l : List String) : ∀ w : String,
    some (bestFrom w l) =
      (w :: l).find? (fun c => decide (∀ c' ∈ w :: l, score c' ≤ score c)) := by
  induction l with
  | nil =>
      intro w
      rw [show bestFrom w [] = w from rfl,
        List.find?_cons_of_pos _ (by simp)]
  | cons c cs ih =>
      intro w
      by_cases h : score c > score w
      · have hlhs : bestFrom w (c :: cs) = bestFrom c cs := by
          simp only [bestFrom]
          rw [if_pos h]
        have hwf : ¬((fun c' => decide (∀ x ∈ w :: c :: cs, score x ≤ score c')) w = true) := by
          simp only [decide_eq_true_eq]
          intro hall
          exact absurd (hall c (by simp)) (not_le.mpr h)
        rw [hlhs, @List.find?_cons_of_neg _
          (fun c' => decide (∀ x ∈ w :: c :: cs, score x ≤ score c')) w (c :: cs) hwf]
        have hcong : (c :: cs).find?
            (fun c' => decide (∀ x ∈ w :: c :: cs, score x ≤ score c')) =
            (c :: cs).find? (fun c' => decide (∀ x ∈ c :: cs, score x ≤ score c')) := by
          refine findCongrGen _ (fun x _ => decide_eq_decide.mpr ?_)
          constructor
          · intro hall y hy
            exact hall y (List.mem_cons_of_mem _ hy)
          · intro hall y hy
            rcases List.mem_cons.mp hy with rfl | hy'
            · exact le_trans (le_of_lt h) (hall c (List.mem_cons_self _ _))
            · exact hall y hy'
        rw [hcong]
        exact ih c
      · have hle : score c ≤ score w := not_lt.mp h
        have hlhs : bestFrom w (c :: cs) = bestFrom w cs := by
          simp only [bestFrom]
          rw [if_neg h]
        rw [hlhs]
        by_cases hw : ∀ x ∈ w :: c :: cs, score x ≤ score w
        · rw [@List.find?_cons_of_pos _
            (fun c' => decide (∀ x ∈ w :: c :: cs, score x ≤ score c')) w (c :: cs)
            (by simpa using hw)]
          have hmid : (w :: cs).find?
              (fun c' => decide (∀ x ∈ w :: cs, score x ≤ score c')) = some w := by
            refine @List.find?_cons_of_pos _
              (fun c' => decide (∀ x ∈ w :: cs, score x ≤ score c')) w cs ?_
            simp only [decide_eq_true_eq]
            intro x hx
            rcases List.mem_cons.mp hx with rfl | hx'
            · exact le_refl _
            · exact hw x (List.mem_cons_of_mem _ (List.mem_cons_of_mem _ hx'))
          rw [ih w, hmid]
        · have hwf : ¬((fun c' => decide (∀ x ∈ w :: c :: cs, score x ≤ score c')) w = true) := by
            simpa using hw
          rw [@List.find?_cons_of_neg _
            (fun c' => decide (∀ x ∈ w :: c :: cs, score x ≤ score c')) w (c :: cs) hwf]
          have hcf : ¬((fun c' => decide (∀ x ∈ w :: c :: cs, score x ≤ score c')) c = true) := by
            simp only [decide_eq_true_eq]
            intro hall
            exact hw (fun x hx => le_trans (hall x hx) hle)
          rw [@List.find?_cons_of_neg _
            (fun c' => decide (∀ x ∈ w :: c :: cs, score x ≤ score c')) c cs hcf]
          have hcong : cs.find?
              (fun c' => decide (∀ x ∈ w :: c :: cs, score x ≤ score c')) =
              cs.find? (fun c' => decide (∀ x ∈ w :: cs, score x ≤ score c')) := by
            refine findCongrGen _ (fun x _ => decide_eq_decide.mpr ?_)
            constructor
            · intro hall y hy
              rcases List.mem_cons.mp hy with rfl | hy'
              · exact hall y (List.mem_cons_self _ _)
              · exact hall y (List.mem_cons_of_mem _ (List.mem_cons_of_mem _ hy'))
            · intro hall y hy
              rcases List.mem_cons.mp hy with rfl | hy'
              · exact hall y (List.mem_cons_self _ _)
              · rcases List.mem_cons.mp hy' with rfl | hy''
                · exact le_trans hle (hall w (List.mem_cons_self _ _))
                · exact hall y (List.mem_cons_of_mem _ hy'')
          have hwmid : ¬((fun c' => decide (∀ x ∈ w :: cs, score x ≤ score c')) w = true) := by
            simp only [decide_eq_true_eq]
            intro hall
            refine hw (fun x hx => ?_)
            rcases List.mem_cons.mp hx with rfl | hx'
            · exact le_refl _
            · rcases List.mem_cons.mp hx' with rfl | hx''
              · exact hle
              · exact hall x (List.mem_cons_of_mem _ hx'')
          rw [hcong, ih w, @List.find?_cons_of_neg _
            (fun c' => decide (∀ x ∈ w :: cs, score x ≤ score c')) w cs hwmid]

theorem bestFrom_mem (l : List String) : ∀ w : String, bestFrom w l ∈ w :: l := by
  induction l with
  | nil => intro w; simp [bestFrom]
  | cons c cs ih =>
      intro w
      simp only [bestFrom]
      by_cases h : score c > score w
      · rw [if_pos h]
        rcases List.mem_cons.mp (ih c) with hh | hh
        · rw [hh]; simp
        · exact List.mem_cons_of_mem _ (List.mem_cons_of_mem _ hh)
      · rw [if_neg h]
        rcases List.mem_cons.mp (ih w) with hh | hh
        · rw [hh]; simp
        · exact List.mem_cons_of_mem _ (List.mem_cons_of_mem _ hh)

theorem pyUniqAux_subset (l : List String) : ∀ (seen : List String) (x : String),
    x ∈ pyUniqAux seen l → x ∈ l := by
  induction l with
  | nil => intro seen x hx; exact absurd hx (List.not_mem_nil x)
  | cons c cs ih =>
      intro seen x hx
      unfold pyUniqAux at hx
      split at hx
      · exact List.mem_cons_of_mem _ (ih seen x hx)
      · rcases List.mem_cons.mp hx with rfl | hx'
        · exact List.mem_cons_self _ _
        · exact List.mem_cons_of_mem _ (ih (c :: seen) x hx')

theorem candidates_min_length (page : CompPage) :
    ∀ x ∈ candidates page, 5 ≤ x.length := by
  intro x hx
  unfold candidates at hx
  split at hx
  · obtain ⟨t, _, hft⟩ := List.mem_filterMap.mp hx
    split at hft
    · rename_i hcond
      rw [← Option.some.inj hft]
      exact hcond.1
    · exact Option.noConfusion hft
  · obtain ⟨t, _, hft⟩ := List.mem_filterMap.mp hx
    split at hft
    · exact Option.noConfusion hft
    · split at hft
      · exact Option.noConfusion hft
      · split at hft
        · rename_i hcond
          rw [← Option.some.inj hft]
          exact hcond.1
        · exact Option.noConfusion hft

/- Claim theorems. -/

/-- C3: the deduplicated output of parse_matches_from_comp_page has pairwise
distinct match_id values, and every retained record is the last candidate in
row-extraction order carrying its identifier (reverse-order search over the
candidate list finds exactly the retained record). -/
theorem dedup_distinct_keeps_last (dtp : String → Except Unit String)
    (sha1hex : String → String) (rows : List Row) (motnumer sourceUrl : String) :
    ((parse_matches_from_comp_page dtp sha1hex rows motnumer sourceUrl).map
        (fun m => m.match_id)).Nodup ∧
      ∀ m ∈ parse_matches_from_comp_page dtp sha1hex rows motnumer sourceUrl,
        (rows.filterMap (extractRow dtp sha1hex motnumer sourceUrl)).reverse.find?
            (fun c => decide (c.match_id = m.match_id)) = some m := by
  have hfold : (rows.filterMap (extractRow dtp sha1hex motnumer sourceUrl)).foldl
      (fun d m => pyDictInsert d m.match_id m) [] =
      ((rows.filterMap (extractRow dtp sha1hex motnumer sourceUrl)).map
        (fun m => (m.match_id, m))).foldl (fun d p => pyDictInsert d p.1 p.2) [] := by
    rw [List.foldl_map]
  constructor
  · unfold parse_matches_from_comp_page dedupById
    rw [List.map_map, hfold]
    have hkeys : (((rows.filterMap (extractRow dtp sha1hex motnumer sourceUrl)).map
        (fun m => (m.match_id, m))).foldl (fun d p => pyDictInsert d p.1 p.2) []).map
        ((fun m => m.match_id) ∘ (fun p => p.2)) =
        (((rows.filterMap (extractRow dtp sha1hex motnumer sourceUrl)).map
          (fun m => (m.match_id, m))).foldl (fun d p => pyDictInsert d p.1 p.2) []).map
          (fun p => p.1) := by
      refine List.map_congr_left fun p hp => ?_
      have := dedup_pair_key hp
      simp [Function.comp, this]
    rw [hkeys]
    exact nodup_fst_foldl_pyDictInsert _ []
      (by simp)
  · intro m hm
    rw [← assocFind_dedup]
    unfold parse_matches_from_comp_page dedupById at hm
    obtain ⟨p, hp, hpm⟩ := List.mem_map.mp hm
    rw [hfold] at hp
    have hkey : p.1 = p.2.match_id := dedup_pair_key hp
    have hnodup : ((((rows.filterMap (extractRow dtp sha1hex motnumer sourceUrl)).map
        (fun m => (m.match_id, m))).foldl (fun d p => pyDictInsert d p.1 p.2) []).map
        (fun p => p.1)).Nodup :=
      nodup_fst_foldl_pyDictInsert _ [] (by simp)
    have hfind := assocFind_of_mem_nodup hnodup hp
    rw [hfold]
    rw [show m.match_id = p.1 from by rw [hkey, hpm]]
    rw [show m = p.2 from hpm.symm]
    exact hfind

/-- C3 witness: two rows carrying the same native identifier match/5 collapse
to the later record, and the reverse search over the candidate list returns
exactly that record. -/
theorem dedup_distinct_keeps_last_witness :
    (([⟨["KR", "Valur", "aa"], some "match/5"⟩,
        ⟨["Akureyri", "Fram", "bb"], some "match/5"⟩] : List Row).filterMap
        (extractRow dtpFail shaIdent "7" "u")).reverse.find?
        (fun c => decide (c.match_id =
          (MatchRec.mk "5" "7" none "Akureyri" "Fram" none "scheduled"
            none none "match/5").match_id)) =
      some (MatchRec.mk "5" "7" none "Akureyri" "Fram" none "scheduled"
        none none "match/5") :=
  (dedup_distinct_keeps_last dtpFail shaIdent
      [⟨["KR", "Valur", "aa"], some "match/5"⟩,
       ⟨["Akureyri", "Fram", "bb"], some "match/5"⟩] "7" "u").2
    (MatchRec.mk "5" "7" none "Akureyri" "Fram" none "scheduled"
      none none "match/5") (by decide)

/-- C5: every record emitted by parse_matches_from_comp_page carries status
"played" exactly when both final scores are present, and status "scheduled"
otherwise. -/
theorem status_played_iff_scores (dtp : String → Except Unit String)
    (sha1hex : String → String) (rows : List Row) (motnumer sourceUrl : String) :
    ∀ m ∈ parse_matches_from_comp_page dtp sha1hex rows motnumer sourceUrl,
      m.status = if m.ft_home.isSome && m.ft_away.isSome then "played" else "scheduled" := by
  intro m hm
  obtain ⟨r, _, hr⟩ := mem_parse_matches hm
  obtain ⟨fts, kick, home, away, rfl⟩ := extractRow_some_shape hr
  cases fts <;> rfl

/-- C5 witness: a row with a parsed 2-1 score yields a record with both
scores present and status "played", satisfying the derivation rule. -/
theorem status_played_iff_scores_witness :
    (MatchRec.mk "100||kr|valur" "100" none "KR" "Valur" none "played"
        (some 2) (some 1) "u").status =
      if (MatchRec.mk "100||kr|valur" "100" none "KR" "Valur" none "played"
            (some 2) (some 1) "u").ft_home.isSome &&
          (MatchRec.mk "100||kr|valur" "100" none "KR" "Valur" none "played"
            (some 2) (some 1) "u").ft_away.isSome
      then "played" else "scheduled" :=
  status_played_iff_scores dtpFail shaIdent [⟨["KR", "Valur", "2 - 1"], none⟩] "100" "u"
    (MatchRec.mk "100||kr|valur" "100" none "KR" "Valur" none "played"
      (some 2) (some 1) "u") (by decide)

/-- C10: every record emitted by parse_matches_from_comp_page has a null
venue_raw field; the extractor never populates a venue. -/
theorem venue_always_null (dtp : String → Except Unit String)
    (sha1hex : String → String) (rows : List Row) (motnumer sourceUrl : String) :
    ∀ m ∈ parse_matches_from_comp_page dtp sha1hex rows motnumer sourceUrl,
      m.venue_raw = none := by
  intro m hm
  obtain ⟨r, _, hr⟩ := mem_parse_matches hm
  obtain ⟨fts, kick, home, away, rfl⟩ := extractRow_some_shape hr
  rfl

/-- C10 witness: a concrete extracted record, from a row that carries a
date-bearing cell, still has venue_raw = none. -/
theorem venue_always_null_witness :
    (MatchRec.mk "9" "20" none "KA" "Þór" none "scheduled" none none
        "match/9").venue_raw = none :=
  venue_always_null dtpFail shaIdent [⟨["KA", "Þór", "7.5.2025 19:15"], some "match/9"⟩]
    "20" "u"
    (MatchRec.mk "9" "20" none "KA" "Þór" none "scheduled" none none "match/9")
    (by decide)

/-- When every cell of a row is blank or reads "Results", every team
candidate the two passes produce is the string "Results" itself. -/
theorem teamish_all_results {texts : List String}
    (hcells : ∀ t ∈ texts, t = "" ∨ t = "Results") :
    ∀ x ∈ mkTeamish texts, x = "Results" := by
  have hp1 : ∀ x ∈ teamishPass1 texts, x = "Results" := by
    intro x hx
    obtain ⟨t, ht, hft⟩ := List.mem_filterMap.mp hx
    rcases hcells t ht with rfl | rfl
    · rw [show pass1Cell "" = none from rfl] at hft
      exact Option.noConfusion hft
    · rw [show pass1Cell "Results" = some "Results" from by decide] at hft
      exact (Option.some.inj hft).symm
  have hp2 : ∀ x ∈ teamishPass2 texts, x = "Results" := by
    intro x hx
    obtain ⟨t, ht, hft⟩ := List.mem_filterMap.mp hx
    rcases hcells t ht with rfl | rfl
    · rw [show pass2Cell "" = none from rfl] at hft
      exact Option.noConfusion hft
    · rw [show pass2Cell "Results" = some "Results" from by decide] at hft
      exact (Option.some.inj hft).symm
  intro x hx
  unfold mkTeamish at hx
  split at hx
  · rcases List.mem_append.mp hx with h | h
    · exact hp1 x h
    · exact hp2 x h
  · exact hp1 x hx

/- A row whose non-empty cells all read "Results" is dropped: no distinct
   away name can be chosen, so the find? of line 298 comes back empty. -/
theorem extractRow_results_none {dtp : String → Except Unit String}
    {sha1hex : String → String} {motnumer sourceUrl : String} {row : Row}
    (hcells : ∀ t ∈ row.tds, t = "" ∨ t = "Results") :
    extractRow dtp sha1hex motnumer sourceUrl row = none := by
  have hall := teamish_all_results hcells
  unfold extractRow
  by_cases h1 : row.tds.length < 3
  · rw [if_pos h1]
  · rw [if_neg h1]
    by_cases h2 : headerSkip (String.intercalate " | " row.tds) = true
    · rw [if_pos h2]
    · rw [if_neg h2]
      by_cases h3 : (mkTeamish row.tds).length < 2
      · rw [if_pos h3]
      · rw [if_neg h3]
        cases hteam : mkTeamish row.tds with
        | nil => rfl
        | cons t0 rest =>
            dsimp only
            have ht0 : t0 = "Results" := hall t0 (by rw [hteam]; exact List.mem_cons_self _ _)
            have hfind : (rest.map pyStrip).find?
                (fun x => !(x = "") && !(x = pyStrip t0)) = none := by
              rw [List.find?_eq_none]
              intro x hx
              obtain ⟨y, hy, rfl⟩ := List.mem_map.mp hx
              have hyR : y = "Results" :=
                hall y (by rw [hteam]; exact List.mem_cons_of_mem _ hy)
              subst hyR
              subst ht0
              decide
            rw [hfind]

/-- C6: a table row whose non-empty cell contents all read "Results"
contributes no record to the match set of parse_matches_from_comp_page,
whatever the row's cell count, link, and surrounding rows are. -/
theorem results_only_row_no_record (dtp : String → Except Unit String)
    (sha1hex : String → String) (motnumer sourceUrl : String)
    (rows₁ rows₂ : List Row) (row : Row)
    (hcells : ∀ t ∈ row.tds, t = "" ∨ t = "Results") :
    parse_matches_from_comp_page dtp sha1hex (rows₁ ++ row :: rows₂) motnumer sourceUrl =
      parse_matches_from_comp_page dtp sha1hex (rows₁ ++ rows₂) motnumer sourceUrl := by
  unfold parse_matches_from_comp_page
  rw [List.filterMap_append, List.filterMap_append, List.filterMap_cons,
    extractRow_results_none hcells]

/-- C6 witness: a three-cell row whose only non-empty cell reads "Results"
leaves the extracted match set unchanged. -/
theorem results_only_row_no_record_witness :
    parse_matches_from_comp_page dtpFail shaIdent
        ([] ++ (⟨["Results", "", ""], none⟩ : Row) :: []) "7" "u" =
      parse_matches_from_comp_page dtpFail shaIdent ([] ++ []) "7" "u" :=
  results_only_row_no_record dtpFail shaIdent "7" "u" [] []
    ⟨["Results", "", ""], none⟩ (by decide)

/-- C1 counterexample: the claim says infer_gender_tier maps a title with the
numbered-division pattern "N. deild" to tier N + 1, so that "3. deild karla"
yields gender Men and tier 4.  The source stores the stated number itself:
the title evaluates to gender "M" and tier 3, not tier 4. -/
theorem infer_gender_tier_offset_counterexample :
    infer_gender_tier "3. deild karla" ≠ (some "M", some 4) ∧
      (infer_gender_tier "3. deild karla").2 = some 3 := by
  constructor
  · decide
  · decide

/-- C1 amended: for every competition title in which the numbered-division
pattern "N. deild" matches with number N, infer_gender_tier returns the
stated number N itself as the tier, with no offset; in particular
"3. deild karla" yields gender Men and tier 3. -/
theorem infer_gender_tier_stated_number :
    (∀ (s : String) (n : Nat), searchDeildNum (toLowerStr s) = some n →
        (infer_gender_tier s).2 = some n) ∧
      infer_gender_tier "3. deild karla" = (some "M", some 3) := by
  constructor
  · intro s n h
    exact h
  · decide

/-- C1 witness: the universal stated-number rule applied at the concrete
title "5. deild kvenna", whose pattern number is 5. -/
theorem infer_gender_tier_stated_number_witness :
    searchDeildNum (toLowerStr "5. deild kvenna") = some 5 ∧
      (infer_gender_tier "5. deild kvenna").2 = some 5 :=
  ⟨by decide,
   infer_gender_tier_stated_number.1 "5. deild kvenna" 5 (by decide)⟩

/-- C2 counterexample: the claim says cup vocabulary forces tier = null even
when a numbered-division pattern is present.  The source has no cup rule at
all: the title "Bikar 2. deild karla" contains the cup keyword "bikar" and
still gets tier 2 from the numeric pattern. -/
theorem cup_rule_counterexample :
    containsSub (toLowerStr "Bikar 2. deild karla") "bikar" = true ∧
      (infer_gender_tier "Bikar 2. deild karla").2 ≠ none ∧
      (infer_gender_tier "Bikar 2. deild karla").2 = some 2 := by
  refine ⟨by decide, by decide, by decide⟩

/-- C2 amended: cup vocabulary has no effect on tier inference.  For every
title, cup or not, the tier is exactly the result of the numbered-division
pattern search on the lower-cased title — tier N when the pattern matches
with number N, and null exactly when no pattern occurs.  In particular the
cup title "Bikar 2. deild karla" still gets tier 2, and the cup title
"Mjólkurbikar kvenna" gets tier null only for lack of a pattern. -/
theorem cup_vocabulary_ignored :
    (∀ s : String, (infer_gender_tier s).2 = searchDeildNum (toLowerStr s)) ∧
      infer_gender_tier "Bikar 2. deild karla" = (some "M", some 2) ∧
      infer_gender_tier "Mjólkurbikar kvenna" = (some "W", none) := by
  refine ⟨fun s => rfl, by decide, by decide⟩

/-- C7 counterexample: the claim says parse_competition_name returns the
sentinel "Unknown competition" exactly when there is no candidate or the
winning candidate is deny-listed.  A page whose only heading text is the
string "Unknown competition" itself refutes the "exactly when": a candidate
exists, no candidate is deny-listed, and the returned value is nevertheless
the sentinel string. -/
theorem title_sentinel_counterexample :
    parse_competition_name ⟨["Unknown competition"], []⟩ "x" = "Unknown competition" ∧
      pyUniq (candidates ⟨["Unknown competition"], []⟩) ≠ [] ∧
      ∀ w ∈ pyUniq (candidates ⟨["Unknown competition"], []⟩),
        BAD.contains (toLowerStr w) = false := by
  refine ⟨by decide, by decide, by decide⟩

/-- C7 amended: parse_competition_name returns the first-seen candidate
attaining the maximum heuristic score (the find? of the bounded maximality
predicate), a winner exists exactly when the de-duplicated candidate list is
non-empty, and the sentinel is returned exactly when there is no candidate,
the winner is deny-listed, or the winning candidate's text is itself the
literal sentinel string. -/
theorem title_selection_argmax (page : CompPage) (motnumer : String) :
    (parse_competition_name page motnumer =
      match (pyUniq (candidates page)).find?
          (fun c => decide (∀ c' ∈ pyUniq (candidates page), score c' ≤ score c)) with
      | none => "Unknown competition"
      | some w => if BAD.contains (toLowerStr w) then "Unknown competition" else w) ∧
      ((pyUniq (candidates page)).find?
          (fun c => decide (∀ c' ∈ pyUniq (candidates page), score c' ≤ score c)) = none ↔
        pyUniq (candidates page) = []) ∧
      (parse_competition_name page motnumer = "Unknown competition" ↔
        pyUniq (candidates page) = [] ∨
          ∃ w, (pyUniq (candidates page)).find?
              (fun c => decide (∀ c' ∈ pyUniq (candidates page), score c' ≤ score c)) = some w ∧
            (BAD.contains (toLowerStr w) = true ∨ w = "Unknown competition")) := by
  cases hl : pyUniq (candidates page) with
  | nil =>
      unfold parse_competition_name
      rw [hl, show pickBest ([] : List String) = none from rfl]
      dsimp only
      refine ⟨rfl, by simp, by simp⟩
  | cons c cs =>
      have hbf := bestFrom_find cs c
      have hne : bestFrom c cs ≠ "" := by
        have hmem : bestFrom c cs ∈ c :: cs := bestFrom_mem cs c
        have hmem2 : bestFrom c cs ∈ candidates page := by
          refine pyUniqAux_subset (candidates page) [] _ ?_
          have hq : pyUniq (candidates page) = pyUniqAux [] (candidates page) := rfl
          rw [← hq, hl]
          exact hmem
        have hlen := candidates_min_length page _ hmem2
        intro hemp
        rw [hemp] at hlen
        simp at hlen
      unfold parse_competition_name
      rw [hl, pickBest_cons, ← hbf]
      dsimp only
      refine ⟨?_, by simp, ?_⟩
      · by_cases hbad : BAD.contains (toLowerStr (bestFrom c cs)) = true
        · rw [if_pos (Or.inr hbad), if_pos hbad]
        · rw [if_neg (fun hor => hor.elim hne hbad), if_neg hbad]
      · constructor
        · intro hsent
          by_cases hbad : BAD.contains (toLowerStr (bestFrom c cs)) = true
          · exact Or.inr ⟨bestFrom c cs, rfl, Or.inl hbad⟩
          · rw [if_neg (fun hor => hor.elim hne hbad)] at hsent
            exact Or.inr ⟨bestFrom c cs, rfl, Or.inr hsent⟩
        · intro hr
          rcases hr with h | ⟨w, hw, hcase⟩
          · exact absurd h (by simp)
          · have hwbf : w = bestFrom c cs := (Option.some.inj hw).symm
            subst hwbf
            rcases hcase with hbad | hunk
            · rw [if_pos (Or.inr hbad)]
            · by_cases hcond : bestFrom c cs = "" ∨
                  BAD.contains (toLowerStr (bestFrom c cs)) = true
              · rw [if_pos hcond]
              · rw [if_neg hcond]
                exact hunk

/-- C4: try_parse_kickoff is a total function into Option: a blank or
whitespace-only input yields none, any exception of the underlying fuzzy
date parser (the oracle's error outcome, as dateutil produces on "TBD")
yields none rather than propagating, and a some result can only arise from a
successful parse of the stripped input. -/
theorem try_parse_kickoff_never_raises (dtp : String → Except Unit String)
    (text : String) :
    (pyStrip text = "" → try_parse_kickoff dtp text = none) ∧
      (∀ e, dtp (pyStrip text) = Except.error e → try_parse_kickoff dtp text = none) ∧
      (∀ s, try_parse_kickoff dtp text = some s → dtp (pyStrip text) = Except.ok s) := by
  refine ⟨fun h => by simp [try_parse_kickoff, h], fun e he => ?_, fun s hs => ?_⟩
  · unfold try_parse_kickoff
    by_cases h : pyStrip text = ""
    · simp [h]
    · simp [h, he]
  · unfold try_parse_kickoff at hs
    by_cases h : pyStrip text = ""
    · simp [h] at hs
    · simp only [h, if_false] at hs
      cases hd : dtp (pyStrip text) with
      | ok v => rw [hd] at hs; simp at hs; rw [hs]
      | error e => rw [hd] at hs; simp at hs

/-- C4 witness: with a parser oracle that always raises, the cell "TBD"
yields none, and a whitespace-only cell yields none. -/
theorem try_parse_kickoff_witness :
    try_parse_kickoff (fun _ => Except.error ()) "TBD" = none ∧
      try_parse_kickoff (fun _ => Except.error ()) "   " = none :=
  ⟨(try_parse_kickoff_never_raises (fun _ => Except.error ()) "TBD").2.1 () rfl,
   (try_parse_kickoff_never_raises (fun _ => Except.error ()) "   ").1 (by decide)⟩

/-- C8: the Competition Extractor is a pure function of the page rows, the
competition key, the source url and the two library oracles; two runs on
identical inputs yield identical deduplicated record sets, and the derived
identifier is a function of exactly the hash oracle and the four composite
fields. -/
theorem extraction_is_deterministic (dtp : String → Except Unit String)
    (sha1hex : String → String) (rows : List Row) (motnumer sourceUrl : String) :
    parse_matches_from_comp_page dtp sha1hex rows motnumer sourceUrl =
        parse_matches_from_comp_page dtp sha1hex rows motnumer sourceUrl ∧
      ∀ kickoff home away,
        stable_match_id sha1hex motnumer kickoff home away =
          stable_match_id sha1hex motnumer kickoff home away :=
  ⟨rfl, fun _ _ _ => rfl⟩

/-- C9: the ingestion run fails hard exactly when both the index competition
mapping and the fallback key scan are empty; any non-empty link set resolves
to a successful (ok) result. -/
theorem empty_index_is_fatal (anchors : List Anchor) (year : Int) (html : String) :
    (∃ e, resolveMotnums anchors year html = Except.error e) ↔
      (parse_competitions_from_index anchors year = [] ∧
        extract_motnumer_links html = []) := by
  unfold resolveMotnums
  cases hc : parse_competitions_from_index anchors year with
  | nil =>
      cases hl : extract_motnumer_links html with
      | nil => simp [hl]
      | cons x xs => simp [hl]
  | cons p ps => simp

end KSI
